import Mathlib

/-!
Shallow embedding of the GEE-Image-Fusion core (STARFM-style spatiotemporal
image fusion on Google Earth Engine).

All Earth Engine image operations used by the repository are pixelwise, so the
embedding works at a single pixel.  A per-band sample is an `Option ℚ`:
`none` models a masked (no-data) sample.  Earth Engine arithmetic propagates
masks; the `divide` operation is documented to return 0 on division by zero,
which coincides with the total division of `ℚ` in Lean.  The platform square
root has no exact rational counterpart, so it is threaded through as an
explicit function parameter `s`; `sqrtQ` below is a concrete computable
instance that is exact on perfect squares, used to evaluate witnesses.

Multiband neighborhood images are indexed structurally: `Fin N` for the window
offset (the band-name suffix such as `_0_0` in the source), `Fin 2` for the
bracket date (the day-of-year prefix in the source) and `Fin B` for the
spectral band.
-/

open Matrix

/-- A per-pixel, per-band Earth Engine sample; `none` is a masked value. -/
abbrev EEVal : Type := Option ℚ

/-- Mask-propagating binary pixel arithmetic: the result is masked whenever
either operand is masked. -/
def eeBin (f : ℚ → ℚ → ℚ) (a b : EEVal) : EEVal :=
  a.bind fun x => b.map fun y => f x y

/-- Pixelwise subtraction, as in `ee.Image.subtract`. -/
def eeSub : EEVal → EEVal → EEVal := eeBin fun x y => x - y

/-- Pixelwise multiplication, as in `ee.Image.multiply`. -/
def eeMul : EEVal → EEVal → EEVal := eeBin fun x y => x * y

/-- Pixelwise division, as in `ee.Image.divide`.  The Earth Engine API
reference specifies that division returns 0 for division by 0, which agrees
with division on `ℚ`. -/
def eeDiv : EEVal → EEVal → EEVal := eeBin fun x y => x / y

/-- Pixelwise absolute value, as in `ee.Image.abs`. -/
def eeAbs (a : EEVal) : EEVal := a.map fun x => |x|

/-- Pixelwise comparison, as in `ee.Image.lte`; masked where an operand is
masked. -/
def eeLte (a b : EEVal) : Option Bool :=
  a.bind fun x => b.map fun y => decide (x ≤ y)

/-- The `unmask()` call with default argument: masked samples become 0. -/
def eeUnmask (a : EEVal) : ℚ := a.getD 0

/-- Sum reducer over a finite family of samples (`ee.ImageCollection.sum`,
`ee.Reducer.sum`): masked inputs are skipped; the output is masked only when
every input is masked. -/
def eeSumF {n : ℕ} (f : Fin n → EEVal) : EEVal :=
  if ∀ k, f k = none then none else some (∑ k, (f k).getD 0)

/-- Mean reducer over a finite index type (`ee.Reducer.mean` over the bands of
an image): the mean of the unmasked inputs; masked when every input is
masked. -/
def eeMeanI {ι : Type} [Fintype ι] (f : ι → EEVal) : EEVal :=
  if ∀ i, f i = none then none
  else some ((∑ i, (f i).getD 0) / ((Finset.univ.filter fun i => f i ≠ none).card : ℚ))

/-- Embedding of `calcSpecDist` from `core_functions.py`: for each window
offset the Landsat neighborhood image is subtracted from the MODIS one, the
absolute value is taken, and `ee.Reducer.mean` collapses the bands.  Each
offset image carries one band per bracket date and spectral band, so the mean
runs over the `2 * B` date/band pairs. -/
def calcSpecDist {N B : ℕ} (maskedLandsat modSorted_t01 : Fin N → Fin 2 → Fin B → EEVal) :
    Fin N → EEVal :=
  fun k => eeMeanI fun db : Fin 2 × Fin B =>
    eeAbs (eeSub (maskedLandsat k db.1 db.2) (modSorted_t01 k db.1 db.2))

/-- The window offsets produced by `neighborhoodToBands` for a square kernel
of radius `r`, in band order: both coordinates range over `[-r, r]`. -/
def positionsOfRadius (r : ℕ) : List (ℤ × ℤ) :=
  (List.range (2 * r + 1)).flatMap fun (i : ℕ) =>
    (List.range (2 * r + 1)).map fun (j : ℕ) => ((i : ℤ) - r, (j : ℤ) - r)

/-- Embedding of `calcSpatDist` from `core_functions.py`.  The source parses
the two signed integers out of each position band name; here a position is
that pair directly.  `s` is the platform square-root primitive
(`ee.Number.sqrt`).  The source computes
`1 + sqrt(first^2 + second^2) / w2` with `w2 = (sqrt(length) - 1) / 2`. -/
def calcSpatDist (s : ℚ → ℚ) (positions : List (ℤ × ℤ)) : List ℚ :=
  let w2 : ℚ := (s ((positions.length : ℚ)) - 1) / 2
  positions.map fun p => 1 + s (((p.1 : ℚ)) ^ 2 + ((p.2 : ℚ)) ^ 2) / w2

/-- A computable square root on `ℚ` that is exact on perfect squares, used to
instantiate the platform square-root parameter in concrete witnesses. -/
def sqrtQ (q : ℚ) : ℚ := (Nat.sqrt q.num.toNat : ℚ) / (Nat.sqrt q.den : ℚ)

/-- Embedding of `calcWeight` from `core_functions.py`: the combined distance
is the product of spectral and spatial distance, its reciprocal is normalized
by the band sum, and the unmasked result is packed on the diagonal of an
`N x N` matrix (`unmask().toArray().toArray(1).matrixToDiag()`). -/
def calcWeight {N : ℕ} (spatDist specDist : Fin N → EEVal) :
    Matrix (Fin N) (Fin N) ℚ :=
  let disIndex : Fin N → EEVal := fun k => eeMul (specDist k) (spatDist k)
  let num : Fin N → EEVal := fun k => eeDiv (some 1) (disIndex k)
  let sumNum : EEVal := eeSumF num
  let W : Fin N → EEVal := fun k => eeDiv (num k) sumNum
  Matrix.diagonal fun k => eeUnmask (W k)

/-- Written from the words of the specification (claim C3): the reciprocal of
the combined spectral-spatial distance of one offset, taken as 0 when the
combined distance is masked (in `ℚ` the inverse of 0 is also 0, so an offset
with zero combined distance likewise contributes nothing). -/
def recipTerm (spat spec : EEVal) : ℚ :=
  match spec, spat with
  | some a, some b => (a * b)⁻¹
  | _, _ => 0

/-- Written from the words of the specification (claim C3): the sum of the
reciprocals `1 / (spectral * spatial)` over all offsets with a finite
combined distance. -/
def specRecipSum {N : ℕ} (spatDist specDist : Fin N → EEVal) : ℚ :=
  ∑ k, recipTerm (spatDist k) (specDist k)

/-- One regression input image for bracket date `d` and window offset `k`, as
assembled in `calcConversionCoeff`: a constant intercept band 1, then the `B`
MODIS bands of that date, then the `B` Landsat bands of that date. -/
def trainingRow {N B : ℕ} (maskedLandsat modSorted_t01 : Fin 2 → Fin N → Fin B → EEVal)
    (d : Fin 2) (k : Fin N) : Fin (B + B + 1) → EEVal :=
  Fin.cons (some 1)
    (Fin.append (fun j => modSorted_t01 d k j) (fun j => maskedLandsat d k j))

/-- The flattened collection of regression inputs, date-major over both
bracket dates and all window offsets (`doys.map(... sequence(0, N-1) ...)`
followed by `flatten`). -/
def allRows {N B : ℕ} (maskedLandsat modSorted_t01 : Fin 2 → Fin N → Fin B → EEVal) :
    List (Fin (B + B + 1) → EEVal) :=
  (List.finRange 2).flatMap fun d =>
    (List.finRange N).map fun k => trainingRow maskedLandsat modSorted_t01 d k

/-- The rows actually consumed by the regression reducer: Earth Engine
reducers drop an input tuple whenever any of its values is masked. -/
def validRows {N B : ℕ} (maskedLandsat modSorted_t01 : Fin 2 → Fin N → Fin B → EEVal) :
    List (Fin (B + B + 1) → ℚ) :=
  (allRows maskedLandsat modSorted_t01).filterMap fun f =>
    if h : ∀ i, (f i).isSome then some (fun i => (f i).get (h i)) else none

/-- The design matrix of the regression: the first `B + 1` values of each
valid row (intercept and MODIS bands), one matrix row per retained tuple. -/
def designX {N B : ℕ} (maskedLandsat modSorted_t01 : Fin 2 → Fin N → Fin B → EEVal) :
    Matrix (Fin (validRows maskedLandsat modSorted_t01).length) (Fin (B + 1)) ℚ :=
  Matrix.of fun i j =>
    (validRows maskedLandsat modSorted_t01).get i (Fin.castLE (by omega) j)

/-- The dependent values of the regression: the trailing `B` Landsat values
of each valid row. -/
def designY {N B : ℕ} (maskedLandsat modSorted_t01 : Fin 2 → Fin N → Fin B → EEVal) :
    Matrix (Fin (validRows maskedLandsat modSorted_t01).length) (Fin B) ℚ :=
  Matrix.of fun i j =>
    (validRows maskedLandsat modSorted_t01).get i ⟨B + 1 + (j : ℕ), by omega⟩

/-- Model of `ee.Reducer.linearRegression(numX, numY)` per the API reference:
the least-squares coefficients of the dependent variables on the independent
variables, computed here as the normal-equation solution, with both outputs
null when the system is underdetermined (the normal matrix is singular). -/
def eeLinearRegression {m p q : ℕ} (X : Matrix (Fin m) (Fin p) ℚ)
    (Y : Matrix (Fin m) (Fin q) ℚ) : Option (Matrix (Fin p) (Fin q) ℚ) :=
  let g := Xᵀ * X
  if g.det = 0 then none else some ((g.det⁻¹ • g.adjugate) * (Xᵀ * Y))

/-- Embedding of `calcConversionCoeff` from `core_functions.py`: pool the
training tuples, run the linear-regression reducer with `numX = B + 1` and
`numY = B`, and keep rows `1 .. B + 1` of the coefficient array
(`arraySlice(0, 1, B + 1)`), dropping the intercept row 0. -/
def calcConversionCoeff {N B : ℕ}
    (maskedLandsat modSorted_t01 : Fin 2 → Fin N → Fin B → EEVal) :
    Option (Matrix (Fin B) (Fin B) ℚ) :=
  (eeLinearRegression (designX maskedLandsat modSorted_t01)
      (designY maskedLandsat modSorted_t01)).map fun c =>
    c.submatrix Fin.succ id

/-- The per-bracket MODIS difference of `predictLandsat`: prediction-date
neighborhood minus bracket-date neighborhood, as a `N x B` array image. -/
def diffMod {N B : ℕ} (modSorted_tp modSorted_b : Fin N → Fin B → ℚ) :
    Matrix (Fin N) (Fin B) ℚ :=
  Matrix.of fun k j => modSorted_tp k j - modSorted_b k j

/-- The scaled, weighted sum of the neighbor differences in `predictLandsat`:
`weights.matrixMultiply(diff.matrixMultiply(coeffs))` followed by
`arrayReduce(sum, [0])` and projection to a per-band image. -/
def sumPixel {N B : ℕ} (weights : Matrix (Fin N) (Fin N) ℚ)
    (diff : Matrix (Fin N) (Fin B) ℚ) (coeffs : Matrix (Fin B) (Fin B) ℚ) :
    Fin B → ℚ :=
  fun j => ∑ k, (weights * (diff * coeffs)) k j

/-- The per-band reciprocal of the absolute summed MODIS difference
(`sumDiff_t0` and `sumDiff_t1` in `predictLandsat`); division by zero gives 0
per the platform semantics. -/
def sumDiffInv {N B : ℕ} (diff : Matrix (Fin N) (Fin B) ℚ) : Fin B → ℚ :=
  fun j => 1 / |∑ k, diff k j|

/-- The first normalized temporal weight of `predictLandsat` (`weight_t0`):
`sumDiff_t0 / (sumDiff_t0 + sumDiff_t1)`. -/
def weight_t0 {N B : ℕ} (diff0 diff1 : Matrix (Fin N) (Fin B) ℚ) : Fin B → ℚ :=
  fun j => sumDiffInv diff0 j / (sumDiffInv diff0 j + sumDiffInv diff1 j)

/-- The second normalized temporal weight of `predictLandsat` (`weight_t1`):
`sumDiff_t1 / (sumDiff_t0 + sumDiff_t1)`. -/
def weight_t1 {N B : ℕ} (diff0 diff1 : Matrix (Fin N) (Fin B) ℚ) : Fin B → ℚ :=
  fun j => sumDiffInv diff1 j / (sumDiffInv diff0 j + sumDiffInv diff1 j)

/-- Embedding of `predictLandsat` from `core_functions.py`: each bracket
prediction is the bracket Landsat image plus the weighted increment, scaled by
its temporal weight, and the two are added to give the merged prediction. -/
def predictLandsat {N B : ℕ} (landsat_t01 : Fin 2 → Fin B → ℚ)
    (modSorted_t01 : Fin 2 → Fin N → Fin B → ℚ) (modSorted_tp : Fin N → Fin B → ℚ)
    (weights : Matrix (Fin N) (Fin N) ℚ) (coeffs : Matrix (Fin B) (Fin B) ℚ) :
    Fin B → ℚ :=
  let diff : Fin 2 → Matrix (Fin N) (Fin B) ℚ :=
    fun t => diffMod modSorted_tp (modSorted_t01 t)
  fun j =>
    (landsat_t01 0 j + sumPixel weights (diff 0) coeffs j) *
        weight_t0 (diff 0) (diff 1) j +
      (landsat_t01 1 j + sumPixel weights (diff 1) coeffs j) *
        weight_t1 (diff 0) (diff 1) j

/-- Population variance of a list of samples; `ee.Reducer.stdDev` over the
valid pixels of a band is the square root of this. -/
def variancePop (l : List ℚ) : ℚ :=
  (l.map fun x => x ^ 2).sum / l.length - (l.sum / l.length) ^ 2

/-- The standard-deviation reducer, with `s` the platform square root. -/
def stdDevR (s : ℚ → ℚ) (l : List ℚ) : ℚ := s (variancePop l)

/-- The local `getThresh` of `threshold` in `prep_functions.py`: per band,
the standard deviation of the image multiplied by `2 / coverClasses`.  An
image is represented by the list of its valid pixel samples per band. -/
def getThresh {B : ℕ} (s : ℚ → ℚ) (coverClasses : ℚ) (image : Fin B → List ℚ) :
    Fin B → ℚ :=
  fun b => stdDevR s (image b) * (2 / coverClasses)

/-- Embedding of `threshold` from `prep_functions.py`: map `getThresh` over
the list of Landsat images. -/
def threshold {B : ℕ} (s : ℚ → ℚ) (landsat : List (Fin B → List ℚ))
    (coverClasses : ℚ) : List (Fin B → ℚ) :=
  landsat.map (getThresh s coverClasses)

/-- Embedding of `threshMask` from `prep_functions.py`: for each bracket date
and band, the center sample of the neighborhood image minus each offset
sample, absolute value, compared against that date and band threshold. -/
def threshMask {B : ℕ} (neighLandsat_t01 : Fin 2 → Fin B → (ℤ × ℤ) → EEVal)
    (thresh : Fin 2 → Fin B → ℚ) (positions : List (ℤ × ℤ)) :
    Fin 2 → Fin B → List (Option Bool) :=
  fun i b => positions.map fun p =>
    eeLte (eeAbs (eeSub (neighLandsat_t01 i b (0, 0)) (neighLandsat_t01 i b p)))
      (some (thresh i b))

theorem sqrtQ_zero : sqrtQ 0 = 0 := by simp [sqrtQ]

theorem sqrtQ_one : sqrtQ 1 = 1 := by simp [sqrtQ]

theorem sqrtQ_ofNat (n : ℕ) : sqrtQ (n : ℚ) = (Nat.sqrt n : ℚ) := by
  simp [sqrtQ]

theorem positionsOfRadius_length (r : ℕ) :
    (positionsOfRadius r).length = (2 * r + 1) * (2 * r + 1) := by
  unfold positionsOfRadius
  rw [List.length_flatMap]
  simp [Function.comp_def, List.map_const]

/-- C2, amended: for every window radius `r` and offset `(dy, dx)` of the
window, the spatial distance computed by `calcSpatDist` equals
`1 + sqrt(dy^2 + dx^2) / r` — not `sqrt(1 + dy^2 + dx^2) / r` as claimed —
and at the center offset `(0, 0)` it equals 1, not `1 / r` (still nonzero
for every radius, so the weight stays nonsingular there).  The platform
square root `s` is only assumed to be exact on 0 and on the perfect square
`(2r+1)^2`. -/
theorem calcSpatDist_formula (s : ℚ → ℚ) (r : ℕ)
    (hs : s ((((2 * r + 1) * (2 * r + 1) : ℕ) : ℚ)) = ((2 * r + 1 : ℕ) : ℚ))
    (hs0 : s 0 = 0) (k : ℕ) (p : ℤ × ℤ)
    (hp : (positionsOfRadius r).get? k = some p) :
    (calcSpatDist s (positionsOfRadius r)).get? k
      = some (1 + s (((p.1 : ℚ)) ^ 2 + ((p.2 : ℚ)) ^ 2) / (r : ℚ)) ∧
    (p = (0, 0) → (calcSpatDist s (positionsOfRadius r)).get? k = some 1) := by
  have hw : (s (((positionsOfRadius r).length : ℚ)) - 1) / 2 = (r : ℚ) := by
    rw [positionsOfRadius_length, hs]
    push_cast
    ring
  have h1 : (calcSpatDist s (positionsOfRadius r)).get? k
      = some (1 + s (((p.1 : ℚ)) ^ 2 + ((p.2 : ℚ)) ^ 2) / (r : ℚ)) := by
    simp only [calcSpatDist, List.get?_map, hp, hw]
    rfl
  refine ⟨h1, fun hp0 => ?_⟩
  rw [h1, hp0]
  norm_num [hs0]

/-- C2, witness: radius 2, offset `(-1, 0)` at window index 7, with the
platform square root instantiated by `sqrtQ`. -/
theorem calcSpatDist_formula_witness :
    (calcSpatDist sqrtQ (positionsOfRadius 2)).get? 7
      = some (1 + sqrtQ (((-1 : ℤ) : ℚ) ^ 2 + ((0 : ℤ) : ℚ) ^ 2) / ((2 : ℕ) : ℚ)) :=
  (calcSpatDist_formula sqrtQ 2 (by rw [sqrtQ_ofNat]; norm_num) sqrtQ_zero 7
    (-1, 0) (by decide)).1

/-- C2, counterexample: for radius 2 the center offset `(0, 0)` sits at
window index 12, the source computes spatial distance 1 there, and the
claimed value `sqrt(1 + 0^2 + 0^2) / 2 = 1/2` differs from it. -/
theorem calcSpatDist_center_counterexample :
    (positionsOfRadius 2).get? 12 = some ((0 : ℤ), (0 : ℤ)) ∧
    (calcSpatDist sqrtQ (positionsOfRadius 2)).get? 12 = some 1 ∧
    sqrtQ (1 + 0 ^ 2 + 0 ^ 2) / 2 ≠ (1 : ℚ) := by
  have hp : (positionsOfRadius 2).get? 12 = some ((0 : ℤ), (0 : ℤ)) := by decide
  have hw : sqrtQ (((positionsOfRadius 2).length : ℚ)) = 5 := by
    rw [positionsOfRadius_length, sqrtQ_ofNat]
    norm_num
  refine ⟨hp, ?_, by norm_num [sqrtQ_one]⟩
  simp only [calcSpatDist, List.get?_map, hp]
  norm_num [hw, sqrtQ_zero]

theorem recipTerm_some_some (a b : ℚ) : recipTerm (some b) (some a) = (a * b)⁻¹ := rfl

theorem recipTerm_spec_none (x : EEVal) : recipTerm x none = 0 := by
  cases x <;> rfl

theorem recipTerm_spat_none (x : EEVal) : recipTerm none x = 0 := by
  cases x <;> rfl

theorem calcWeight_apply_diag {N : ℕ} (spatDist specDist : Fin N → EEVal) (i : Fin N) :
    calcWeight spatDist specDist i i =
      eeUnmask (eeDiv (eeDiv (some 1) (eeMul (specDist i) (spatDist i)))
        (eeSumF fun k => eeDiv (some 1) (eeMul (specDist k) (spatDist k)))) := by
  simp [calcWeight, Matrix.diagonal]

theorem calcWeight_apply_off {N : ℕ} (spatDist specDist : Fin N → EEVal) (i j : Fin N)
    (h : i ≠ j) : calcWeight spatDist specDist i j = 0 := by
  simp [calcWeight, Matrix.diagonal_apply_ne _ h]

/-- C3: when every unmasked offset has a positive combined spectral-spatial
distance and at least one offset is unmasked, the weight matrix built by
`calcWeight` is diagonal with off-diagonal entries exactly 0, each unmasked
offset carries weight `(1 / (spectral * spatial))` divided by the sum of
those reciprocals over the offsets with finite combined distance, masked
offsets carry exactly 0, and the diagonal sums to 1. -/
theorem calcWeight_diagonal_normalized {N : ℕ} (spatDist specDist : Fin N → EEVal)
    (hpos : ∀ k a b, specDist k = some a → spatDist k = some b → 0 < a * b)
    (k0 : Fin N) (a0 b0 : ℚ) (ha0 : specDist k0 = some a0) (hb0 : spatDist k0 = some b0) :
    (∀ i j, i ≠ j → calcWeight spatDist specDist i j = 0) ∧
    (∀ k a b, specDist k = some a → spatDist k = some b →
      calcWeight spatDist specDist k k
        = (1 / (a * b)) / specRecipSum spatDist specDist) ∧
    (∀ k, specDist k = none ∨ spatDist k = none → calcWeight spatDist specDist k k = 0) ∧
    (∑ k, calcWeight spatDist specDist k k) = 1 := by
  classical
  have hnum_some : ∀ k a b, specDist k = some a → spatDist k = some b →
      eeDiv (some 1) (eeMul (specDist k) (spatDist k)) = some (1 / (a * b)) := by
    intro k a b ha hb
    simp [eeDiv, eeMul, eeBin, ha, hb]
  have hterm_nonneg : ∀ k, 0 ≤ recipTerm (spatDist k) (specDist k) := by
    intro k
    rcases hsd : specDist k with _ | a <;> rcases hsp : spatDist k with _ | b
    · rw [recipTerm_spec_none]
    · rw [recipTerm_spec_none]
    · rw [recipTerm_spat_none]
    · rw [recipTerm_some_some]
      exact le_of_lt (inv_pos.mpr (hpos k a b hsd hsp))
  have hS_pos : 0 < specRecipSum spatDist specDist := by
    rw [specRecipSum]
    refine Finset.sum_pos' (fun k _ => hterm_nonneg k) ⟨k0, Finset.mem_univ k0, ?_⟩
    rw [ha0, hb0, recipTerm_some_some]
    exact inv_pos.mpr (hpos k0 a0 b0 ha0 hb0)
  have hsumF : (eeSumF fun k => eeDiv (some 1) (eeMul (specDist k) (spatDist k)))
      = some (specRecipSum spatDist specDist) := by
    rw [eeSumF, if_neg]
    · rw [specRecipSum]
      congr 1
      refine Finset.sum_congr rfl fun k _ => ?_
      rcases hsd : specDist k with _ | a <;> rcases hsp : spatDist k with _ | b
      · simp [eeDiv, eeMul, eeBin, hsd, hsp, recipTerm_spec_none]
      · simp [eeDiv, eeMul, eeBin, hsd, hsp, recipTerm_spec_none]
      · simp [eeDiv, eeMul, eeBin, hsd, hsp, recipTerm_spat_none]
      · simp [eeDiv, eeMul, eeBin, recipTerm_some_some, one_div]
    · intro hall
      have hc := hall k0
      rw [hnum_some k0 a0 b0 ha0 hb0] at hc
      exact Option.noConfusion hc
  have hdiag : ∀ k, calcWeight spatDist specDist k k
      = recipTerm (spatDist k) (specDist k) / specRecipSum spatDist specDist := by
    intro k
    rw [calcWeight_apply_diag, hsumF]
    rcases hsd : specDist k with _ | a <;> rcases hsp : spatDist k with _ | b
    · simp [eeDiv, eeMul, eeBin, eeUnmask, hsd, hsp, recipTerm_spec_none]
    · simp [eeDiv, eeMul, eeBin, eeUnmask, hsd, hsp, recipTerm_spec_none]
    · simp [eeDiv, eeMul, eeBin, eeUnmask, hsd, hsp, recipTerm_spat_none]
    · simp [eeDiv, eeMul, eeBin, eeUnmask, recipTerm_some_some, one_div]
  refine ⟨fun i j hij => calcWeight_apply_off spatDist specDist i j hij, ?_, ?_, ?_⟩
  · intro k a b ha hb
    rw [hdiag k, ha, hb, recipTerm_some_some, one_div]
  · intro k hk
    rw [hdiag k]
    rcases hk with h | h
    · rw [h, recipTerm_spec_none, zero_div]
    · rw [h, recipTerm_spat_none, zero_div]
  · calc (∑ k, calcWeight spatDist specDist k k)
        = ∑ k, recipTerm (spatDist k) (specDist k) / specRecipSum spatDist specDist :=
          Finset.sum_congr rfl fun k _ => hdiag k
      _ = (∑ k, recipTerm (spatDist k) (specDist k)) / specRecipSum spatDist specDist :=
          (Finset.sum_div _ _ _).symm
      _ = 1 := div_self (ne_of_gt hS_pos)

/-- C3, witness: a two-offset window with one masked offset; the diagonal of
the weight matrix sums to 1. -/
theorem calcWeight_diagonal_normalized_witness :
    (∑ k, calcWeight ![some (1/2 : ℚ), some 3] ![some (1 : ℚ), none] k k) = 1 :=
  (calcWeight_diagonal_normalized ![some (1/2 : ℚ), some 3] ![some (1 : ℚ), none]
    (by
      intro k a b ha hb
      fin_cases k
      · simp only [Matrix.cons_val_zero] at ha hb
        injection ha with ha2
        injection hb with hb2
        rw [← ha2, ← hb2]
        norm_num
      · simp at ha)
    0 1 (1/2) rfl rfl).2.2.2

/-- C9: at a pixel where every offset's combined spectral-spatial distance is
masked, `calcWeight` returns the all-zero diagonal matrix — its diagonal sums
to 0, not 1 — because the masked normalized weights are unmasked to 0; such a
pixel then contributes a zero increment to the prediction. -/
theorem calcWeight_all_masked {N B : ℕ} (spatDist specDist : Fin N → EEVal)
    (h : ∀ k, specDist k = none ∨ spatDist k = none)
    (diff : Matrix (Fin N) (Fin B) ℚ) (coeffs : Matrix (Fin B) (Fin B) ℚ) :
    calcWeight spatDist specDist = 0 ∧
    (∑ k, calcWeight spatDist specDist k k) = 0 ∧
    (∀ j, sumPixel (calcWeight spatDist specDist) diff coeffs j = 0) := by
  have hW : calcWeight spatDist specDist = 0 := by
    ext i j
    by_cases hij : i = j
    · subst hij
      rw [calcWeight_apply_diag]
      rcases h i with hi | hi <;>
        simp [eeMul, eeDiv, eeBin, eeUnmask, hi]
    · rw [calcWeight_apply_off spatDist specDist i j hij, Matrix.zero_apply]
  refine ⟨hW, ?_, ?_⟩
  · rw [hW]
    simp
  · intro j
    rw [sumPixel, hW]
    simp

/-- C9, witness: a one-offset window whose only combined distance is masked
yields the zero weight matrix. -/
theorem calcWeight_all_masked_witness :
    calcWeight (![some (1 : ℚ)] : Fin 1 → EEVal) (![none] : Fin 1 → EEVal) = 0 :=
  (@calcWeight_all_masked 1 1 ![some (1 : ℚ)] ![none]
    (fun k => Or.inl (by fin_cases k; rfl))
    (Matrix.of fun _ _ => (5 : ℚ)) (Matrix.of fun _ _ => (3 : ℚ))).1

/-- C1: for a diagonal weight matrix, the merged prediction of
`predictLandsat` equals, per band,
`weight_t0 * (sparse_t0 + increment_t0) + weight_t1 * (sparse_t1 + increment_t1)`
where `increment_b` is the weighted, slope-scaled sum of the per-offset dense
deltas, `inverse_b = 1 / |sum of the dense deltas of bracket b|` and
`weight_b = inverse_b / (inverse_t0 + inverse_t1)`; the hypotheses rule out
the degenerate zero-delta case so the divisions are genuine. -/
theorem predictLandsat_blend_formula {N B : ℕ}
    (landsat_t01 : Fin 2 → Fin B → ℚ) (modSorted_t01 : Fin 2 → Fin N → Fin B → ℚ)
    (modSorted_tp : Fin N → Fin B → ℚ) (w : Fin N → ℚ)
    (coeffs : Matrix (Fin B) (Fin B) ℚ) (j : Fin B)
    (h0 : (∑ k, (modSorted_tp k j - modSorted_t01 0 k j)) ≠ 0)
    (h1 : (∑ k, (modSorted_tp k j - modSorted_t01 1 k j)) ≠ 0) :
    predictLandsat landsat_t01 modSorted_t01 modSorted_tp (Matrix.diagonal w) coeffs j
      = (1 / |∑ k, (modSorted_tp k j - modSorted_t01 0 k j)|) /
          ((1 / |∑ k, (modSorted_tp k j - modSorted_t01 0 k j)|)
            + (1 / |∑ k, (modSorted_tp k j - modSorted_t01 1 k j)|))
          * (landsat_t01 0 j
              + ∑ k, w k * (∑ m, (modSorted_tp k m - modSorted_t01 0 k m) * coeffs m j))
        + (1 / |∑ k, (modSorted_tp k j - modSorted_t01 1 k j)|) /
          ((1 / |∑ k, (modSorted_tp k j - modSorted_t01 0 k j)|)
            + (1 / |∑ k, (modSorted_tp k j - modSorted_t01 1 k j)|))
          * (landsat_t01 1 j
              + ∑ k, w k * (∑ m, (modSorted_tp k m - modSorted_t01 1 k m) * coeffs m j)) := by
  have hsp : ∀ t : Fin 2, sumPixel (Matrix.diagonal w)
      (diffMod modSorted_tp (modSorted_t01 t)) coeffs j
      = ∑ k, w k * (∑ m, (modSorted_tp k m - modSorted_t01 t k m) * coeffs m j) := by
    intro t
    rw [sumPixel]
    refine Finset.sum_congr rfl fun k _ => ?_
    rw [Matrix.diagonal_mul, Matrix.mul_apply]
    rfl
  have hd : ∀ (t : Fin 2) k, diffMod modSorted_tp (modSorted_t01 t) k j
      = modSorted_tp k j - modSorted_t01 t k j := fun t k => rfl
  simp only [predictLandsat, weight_t0, weight_t1, sumDiffInv, hsp, hd]
  ring

/-- C1, witness: a one-offset, one-band instance with nonzero deltas for both
brackets; the merged prediction evaluates to `40 / 3`. -/
theorem predictLandsat_blend_formula_witness :
    @predictLandsat 1 1 ![![(10 : ℚ)], ![20]] ![fun _ _ => (1 : ℚ), fun _ _ => 4]
      (fun _ _ => (2 : ℚ)) (Matrix.diagonal fun _ => (2 : ℚ))
      (Matrix.of fun _ _ => (3 : ℚ)) 0 = 40 / 3 := by
  rw [@predictLandsat_blend_formula 1 1 ![![(10 : ℚ)], ![20]]
    ![fun _ _ => (1 : ℚ), fun _ _ => 4] (fun _ _ => (2 : ℚ)) (fun _ => (2 : ℚ))
    (Matrix.of fun _ _ => (3 : ℚ)) 0
    (by norm_num [Fin.sum_univ_one])
    (by norm_num [Fin.sum_univ_one])]
  norm_num [Fin.sum_univ_one]

/-- C4, amended: no not-a-number or infinity can enter the outputs because
the platform division is total with `x / 0 = 0`, but the degeneracies are not
clamped to maximal confidence: an unmasked offset whose combined
spectral-spatial distance is zero receives diagonal weight exactly 0 in
`calcWeight`, and a bracket whose dense delta sums to zero receives temporal
weight exactly 0 in `predictLandsat` — the merged prediction then equals the
other bracket's prediction alone. -/
theorem degenerate_clamping_amended {N B : ℕ} (spatDist specDist : Fin N → EEVal)
    (k0 : Fin N) (a b : ℚ) (ha : specDist k0 = some a) (hb : spatDist k0 = some b)
    (hab : a * b = 0)
    (landsat_t01 : Fin 2 → Fin B → ℚ) (modSorted_t01 : Fin 2 → Fin N → Fin B → ℚ)
    (modSorted_tp : Fin N → Fin B → ℚ) (W : Matrix (Fin N) (Fin N) ℚ)
    (coeffs : Matrix (Fin B) (Fin B) ℚ) (j : Fin B)
    (h0 : (∑ k, (modSorted_tp k j - modSorted_t01 0 k j)) = 0)
    (h1 : (∑ k, (modSorted_tp k j - modSorted_t01 1 k j)) ≠ 0) :
    calcWeight spatDist specDist k0 k0 = 0 ∧
    weight_t0 (diffMod modSorted_tp (modSorted_t01 0))
      (diffMod modSorted_tp (modSorted_t01 1)) j = 0 ∧
    weight_t1 (diffMod modSorted_tp (modSorted_t01 0))
      (diffMod modSorted_tp (modSorted_t01 1)) j = 1 ∧
    predictLandsat landsat_t01 modSorted_t01 modSorted_tp W coeffs j
      = landsat_t01 1 j + sumPixel W (diffMod modSorted_tp (modSorted_t01 1)) coeffs j := by
  have hi0 : sumDiffInv (diffMod modSorted_tp (modSorted_t01 0)) j = 0 := by
    rw [sumDiffInv]
    have hz : (∑ k, diffMod modSorted_tp (modSorted_t01 0) k j) = 0 := h0
    rw [hz]
    norm_num
  have hi1ne : sumDiffInv (diffMod modSorted_tp (modSorted_t01 1)) j ≠ 0 := by
    rw [sumDiffInv]
    have h1z : (∑ k, diffMod modSorted_tp (modSorted_t01 1) k j) ≠ 0 := h1
    exact one_div_ne_zero fun hc => h1z (abs_eq_zero.mp hc)
  have hw0 : weight_t0 (diffMod modSorted_tp (modSorted_t01 0))
      (diffMod modSorted_tp (modSorted_t01 1)) j = 0 := by
    rw [weight_t0, hi0, zero_div]
  have hw1 : weight_t1 (diffMod modSorted_tp (modSorted_t01 0))
      (diffMod modSorted_tp (modSorted_t01 1)) j = 1 := by
    rw [weight_t1, hi0, zero_add]
    exact div_self hi1ne
  refine ⟨?_, hw0, hw1, ?_⟩
  · have hnum0 : eeDiv (some 1) (eeMul (specDist k0) (spatDist k0)) = some 0 := by
      rw [ha, hb]
      simp [eeDiv, eeMul, eeBin, hab]
    have hnn : ¬ ∀ k, (eeDiv (some 1) (eeMul (specDist k) (spatDist k))) = none := by
      intro hall
      have hc := hall k0
      rw [hnum0] at hc
      exact Option.noConfusion hc
    rw [calcWeight_apply_diag, eeSumF, if_neg hnn, hnum0]
    simp [eeDiv, eeBin, eeUnmask]
  · simp only [predictLandsat]
    rw [hw0, hw1]
    ring

/-- C4, witness: with a zero combined distance at the only offset of bracket
data whose first bracket has zero dense delta, the merged prediction equals
the second bracket's prediction alone. -/
theorem degenerate_clamping_amended_witness :
    @predictLandsat 1 1 ![![(10 : ℚ)], ![20]] ![fun _ _ => (5 : ℚ), fun _ _ => 7]
      (fun _ _ => (5 : ℚ)) 1 1 0
      = (![![(10 : ℚ)], ![20]]) 1 0
        + sumPixel 1 (diffMod (fun _ _ => (5 : ℚ))
            ((![fun _ _ => (5 : ℚ), fun _ _ => 7] : Fin 2 → Fin 1 → Fin 1 → ℚ) 1)) 1 0 :=
  (@degenerate_clamping_amended 1 1 ![some (1 : ℚ)] ![some (0 : ℚ)] 0 0 1 rfl rfl
    (by norm_num) ![![(10 : ℚ)], ![20]] ![fun _ _ => (5 : ℚ), fun _ _ => 7]
    (fun _ _ => (5 : ℚ)) 1 1 0
    (by norm_num [Fin.sum_univ_one]) (by norm_num [Fin.sum_univ_one])).2.2.2

/-- C4, counterexample: a bracket whose dense delta sums to exactly zero is
not treated as maximal confidence — its temporal weight evaluates to 0, the
minimum, and the merged prediction (18) ignores that bracket entirely instead
of returning its anchored value (10). -/
theorem predict_zero_delta_counterexample :
    (∑ k : Fin 1, ((fun (_ : Fin 1) (_ : Fin 1) => (5 : ℚ)) k 0
        - (![fun _ _ => (5 : ℚ), fun _ _ => 7] : Fin 2 → Fin 1 → Fin 1 → ℚ) 0 k 0)) = 0 ∧
    weight_t0
      (diffMod (fun _ _ => (5 : ℚ))
        ((![fun _ _ => (5 : ℚ), fun _ _ => 7] : Fin 2 → Fin 1 → Fin 1 → ℚ) 0))
      (diffMod (fun _ _ => (5 : ℚ))
        ((![fun _ _ => (5 : ℚ), fun _ _ => 7] : Fin 2 → Fin 1 → Fin 1 → ℚ) 1)) 0 = 0 ∧
    @predictLandsat 1 1 ![![(10 : ℚ)], ![20]] ![fun _ _ => (5 : ℚ), fun _ _ => 7]
      (fun _ _ => (5 : ℚ)) 1 1 0 = 18 ∧
    (18 : ℚ) ≠ 10 := by
  refine ⟨by norm_num [Fin.sum_univ_one], ?_, ?_, by norm_num⟩
  · simp [weight_t0, sumDiffInv, diffMod, Fin.sum_univ_one]
  · simp [predictLandsat, weight_t0, weight_t1, sumDiffInv, sumPixel, diffMod,
      Matrix.mul_apply, Fin.sum_univ_one]
    norm_num

theorem det_transpose_mul_self_eq_zero {m n : ℕ} (h : m < n) (X : Matrix (Fin m) (Fin n) ℚ) :
    (Xᵀ * X).det = 0 := by
  by_contra hd
  have hu : IsUnit (Xᵀ * X) := (Matrix.isUnit_iff_isUnit_det _).mpr (isUnit_iff_ne_zero.mpr hd)
  have hr : (Xᵀ * X).rank = n := by
    rw [Matrix.rank_of_isUnit _ hu, Fintype.card_fin]
  have hle : (Xᵀ * X).rank ≤ m := by
    rw [Matrix.rank_transpose_mul_self]
    exact Matrix.rank_le_height X
  omega

/-- C5: the regression pools exactly the training rows
`(1, dense_per_band, sparse_per_band)` over both bracket dates and all
unmasked offsets (a row is retained iff every one of its values is present),
the returned coefficients solve the ordinary least-squares normal equations
of the pooled design, and only the slope rows survive — the intercept row 0
is cut away by the `arraySlice(0, 1, B + 1)` before the coefficients scale
any dense-sensor delta. -/
theorem calcConversionCoeff_ols {N B : ℕ}
    (maskedLandsat modSorted_t01 : Fin 2 → Fin N → Fin B → EEVal)
    (hg : ((designX maskedLandsat modSorted_t01)ᵀ
        * designX maskedLandsat modSorted_t01).det ≠ 0) :
    (∀ vrow : Fin (B + B + 1) → ℚ,
      vrow ∈ validRows maskedLandsat modSorted_t01 ↔
        ∃ d k, ∀ i, trainingRow maskedLandsat modSorted_t01 d k i = some (vrow i)) ∧
    ∃ beta : Matrix (Fin (B + 1)) (Fin B) ℚ,
      ((designX maskedLandsat modSorted_t01)ᵀ * designX maskedLandsat modSorted_t01) * beta
        = (designX maskedLandsat modSorted_t01)ᵀ * designY maskedLandsat modSorted_t01 ∧
      calcConversionCoeff maskedLandsat modSorted_t01 = some (beta.submatrix Fin.succ id) := by
  constructor
  · intro vrow
    constructor
    · intro hmem
      rw [validRows, List.mem_filterMap] at hmem
      obtain ⟨f, hf, hsome⟩ := hmem
      rw [allRows, List.mem_flatMap] at hf
      obtain ⟨d, _, hfd⟩ := hf
      rw [List.mem_map] at hfd
      obtain ⟨k, _, hk⟩ := hfd
      subst hk
      by_cases hc : ∀ i, (trainingRow maskedLandsat modSorted_t01 d k i).isSome
      · rw [dif_pos hc] at hsome
        refine ⟨d, k, fun i => ?_⟩
        have hfi := congrFun (Option.some.inj hsome) i
        rw [← hfi]
        exact (Option.some_get (hc i)).symm
      · rw [dif_neg hc] at hsome
        exact absurd hsome (by simp)
    · rintro ⟨d, k, hdk⟩
      rw [validRows, List.mem_filterMap]
      refine ⟨trainingRow maskedLandsat modSorted_t01 d k, ?_, ?_⟩
      · rw [allRows, List.mem_flatMap]
        exact ⟨d, List.mem_finRange d, List.mem_map.mpr ⟨k, List.mem_finRange k, rfl⟩⟩
      · have hc : ∀ i, (trainingRow maskedLandsat modSorted_t01 d k i).isSome := by
          intro i
          rw [hdk i]
          rfl
        rw [dif_pos hc]
        congr 1
        funext i
        rw [← Option.some_inj, Option.some_get, hdk i]
  · refine ⟨(((designX maskedLandsat modSorted_t01)ᵀ
        * designX maskedLandsat modSorted_t01).det⁻¹
        • ((designX maskedLandsat modSorted_t01)ᵀ
            * designX maskedLandsat modSorted_t01).adjugate)
        * ((designX maskedLandsat modSorted_t01)ᵀ * designY maskedLandsat modSorted_t01),
        ?_, ?_⟩
    · rw [← Matrix.mul_assoc, Matrix.mul_smul, Matrix.mul_adjugate, smul_smul,
        inv_mul_cancel₀ hg, one_smul, Matrix.one_mul]
    · simp only [calcConversionCoeff, eeLinearRegression]
      rw [if_neg hg]
      rfl

/-- C6: a window with fewer unmasked training rows than the 2 regression
parameters of a band is underdetermined, so the linear-regression reducer
signals failure by returning null for that window — the coefficient output
consumed by the prediction is `none` there — while an independent
well-determined window of the same batch still receives a fit. -/
theorem calcConversionCoeff_insufficient {N N2 B : ℕ} (hB : 0 < B)
    (mL mM : Fin 2 → Fin N → Fin B → EEVal)
    (mL2 mM2 : Fin 2 → Fin N2 → Fin B → EEVal)
    (hm : (validRows mL mM).length < 2)
    (hg2 : ((designX mL2 mM2)ᵀ * designX mL2 mM2).det ≠ 0) :
    calcConversionCoeff mL mM = none ∧
    ∃ c, calcConversionCoeff mL2 mM2 = some c := by
  constructor
  · have hdz : ((designX mL mM)ᵀ * designX mL mM).det = 0 :=
      det_transpose_mul_self_eq_zero (by omega) _
    simp only [calcConversionCoeff, eeLinearRegression]
    rw [if_pos hdz]
    rfl
  · simp only [calcConversionCoeff, eeLinearRegression]
    rw [if_neg hg2]
    exact ⟨_, rfl⟩


theorem sum_fin_reindex {m L : ℕ} (hL : m = L) (F : Fin L → ℚ) :
    (∑ x, F x) = ∑ i : Fin m, F (finCongr hL i) :=
  (Fintype.sum_equiv (finCongr hL) _ F fun _ => rfl).symm

theorem demo_design_det_ne_zero :
    ((@designX 1 1 ![fun _ _ => some (3 : ℚ), fun _ _ => some 5]
        ![fun _ _ => some (1 : ℚ), fun _ _ => some 2])ᵀ
      * @designX 1 1 ![fun _ _ => some (3 : ℚ), fun _ _ => some 5]
        ![fun _ _ => some (1 : ℚ), fun _ _ => some 2]).det ≠ 0 := by
  have hL : (2 : ℕ) = (@validRows 1 1 ![fun _ _ => some (3 : ℚ), fun _ _ => some 5]
      ![fun _ _ => some (1 : ℚ), fun _ _ => some 2]).length := rfl
  have hXfun : ∀ (x : Fin 2) (j : Fin 2),
      @designX 1 1 ![fun _ _ => some (3 : ℚ), fun _ _ => some 5]
        ![fun _ _ => some (1 : ℚ), fun _ _ => some 2] (finCongr hL x) j
        = !![(1 : ℚ), 1; 1, 2] x j := by
    intro x j
    fin_cases x <;> fin_cases j <;> rfl
  have hXX : (@designX 1 1 ![fun _ _ => some (3 : ℚ), fun _ _ => some 5]
        ![fun _ _ => some (1 : ℚ), fun _ _ => some 2])ᵀ
      * @designX 1 1 ![fun _ _ => some (3 : ℚ), fun _ _ => some 5]
        ![fun _ _ => some (1 : ℚ), fun _ _ => some 2] = !![2, 3; 3, 5] := by
    funext i j
    rw [Matrix.mul_apply]
    rw [sum_fin_reindex hL, Fin.sum_univ_two]
    simp only [Matrix.transpose_apply, hXfun]
    fin_cases i <;> fin_cases j <;> norm_num
  rw [hXX, Matrix.det_fin_two_of]
  norm_num

/-- C5, witness: a two-row pooled design (one offset, both dates) with an
invertible normal matrix; the returned slope block solves the normal
equations. -/
theorem calcConversionCoeff_ols_witness :
    ∃ beta : Matrix (Fin 2) (Fin 1) ℚ,
      ((@designX 1 1 ![fun _ _ => some (3 : ℚ), fun _ _ => some 5]
          ![fun _ _ => some (1 : ℚ), fun _ _ => some 2])ᵀ
        * @designX 1 1 ![fun _ _ => some (3 : ℚ), fun _ _ => some 5]
            ![fun _ _ => some (1 : ℚ), fun _ _ => some 2]) * beta
        = (@designX 1 1 ![fun _ _ => some (3 : ℚ), fun _ _ => some 5]
            ![fun _ _ => some (1 : ℚ), fun _ _ => some 2])ᵀ
          * @designY 1 1 ![fun _ _ => some (3 : ℚ), fun _ _ => some 5]
              ![fun _ _ => some (1 : ℚ), fun _ _ => some 2] ∧
      @calcConversionCoeff 1 1 ![fun _ _ => some (3 : ℚ), fun _ _ => some 5]
          ![fun _ _ => some (1 : ℚ), fun _ _ => some 2]
        = some (beta.submatrix Fin.succ id) :=
  (calcConversionCoeff_ols _ _ demo_design_det_ne_zero).2

/-- C6, witness: a window whose bracket-0 sparse value is masked keeps only
one row, fewer than the 2 parameters, and the solver returns none for it
while the fully observed window receives a fit. -/
theorem calcConversionCoeff_insufficient_witness :
    @calcConversionCoeff 1 1 ![fun _ _ => (none : EEVal), fun _ _ => some (5 : ℚ)]
        ![fun _ _ => some (1 : ℚ), fun _ _ => some 2] = none ∧
    ∃ c, @calcConversionCoeff 1 1 ![fun _ _ => some (3 : ℚ), fun _ _ => some 5]
        ![fun _ _ => some (1 : ℚ), fun _ _ => some 2] = some c :=
  calcConversionCoeff_insufficient (by norm_num) _ _ _ _
    (by
      rw [show (@validRows 1 1 ![fun _ _ => (none : EEVal), fun _ _ => some (5 : ℚ)]
        ![fun _ _ => some (1 : ℚ), fun _ _ => some 2]).length = 1 from rfl]
      norm_num)
    demo_design_det_ne_zero

/-- C8: for every offset whose samples are all present, the spectral
distance of `calcSpecDist` equals the mean over bands of
`|sparse_stack[k] - dense_stack[k]|` per bracket date, combined as the
cross-date mean of the two per-date means (not the max); the output is one
value per offset, aligned by the offset index `k` with the neighborhood
stacks. -/
theorem calcSpecDist_cross_date_mean {N B : ℕ} (hB : 0 < B)
    (maskedLandsat modSorted_t01 : Fin N → Fin 2 → Fin B → EEVal) (k : Fin N)
    (l m : Fin 2 → Fin B → ℚ)
    (hL : ∀ d j, maskedLandsat k d j = some (l d j))
    (hM : ∀ d j, modSorted_t01 k d j = some (m d j)) :
    calcSpecDist maskedLandsat modSorted_t01 k
      = some ((((∑ j, |l 0 j - m 0 j|) / B) + ((∑ j, |l 1 j - m 1 j|) / B)) / 2) := by
  classical
  have hf : ∀ db : Fin 2 × Fin B,
      eeAbs (eeSub (maskedLandsat k db.1 db.2) (modSorted_t01 k db.1 db.2))
        = some |l db.1 db.2 - m db.1 db.2| := by
    intro db
    rw [hL db.1 db.2, hM db.1 db.2]
    rfl
  simp only [calcSpecDist]
  rw [eeMeanI, if_neg]
  · have hfilter : (Finset.univ.filter fun db : Fin 2 × Fin B =>
        eeAbs (eeSub (maskedLandsat k db.1 db.2) (modSorted_t01 k db.1 db.2)) ≠ none)
        = Finset.univ := by
      refine Finset.filter_true_of_mem fun db _ => ?_
      rw [hf db]
      exact Option.noConfusion
    have hsum : (∑ db : Fin 2 × Fin B,
        (eeAbs (eeSub (maskedLandsat k db.1 db.2) (modSorted_t01 k db.1 db.2))).getD 0)
        = (∑ j, |l 0 j - m 0 j|) + (∑ j, |l 1 j - m 1 j|) := by
      rw [Fintype.sum_prod_type]
      rw [show (∑ d : Fin 2, ∑ j : Fin B,
          (eeAbs (eeSub (maskedLandsat k d j) (modSorted_t01 k d j))).getD 0)
          = ∑ d : Fin 2, ∑ j : Fin B, |l d j - m d j| from
        Finset.sum_congr rfl fun d _ => Finset.sum_congr rfl fun j _ => by rw [hf (d, j)]; rfl]
      rw [Fin.sum_univ_two]
    rw [hfilter, hsum]
    congr 1
    rw [Finset.card_univ, Fintype.card_prod, Fintype.card_fin, Fintype.card_fin]
    push_cast
    rw [div_add_div_same, div_div, mul_comm ((B : ℚ)) 2]
  · intro hall
    have hc := hall (0, ⟨0, hB⟩)
    rw [hf (0, ⟨0, hB⟩)] at hc
    exact Option.noConfusion hc

/-- C8, witness: one offset, one band, samples 3 and 5 against 1 and 2; the
spectral distance evaluates to the cross-date mean of the per-date means. -/
theorem calcSpecDist_cross_date_mean_witness :
    @calcSpecDist 1 1 (fun _ => ![fun _ => some (3 : ℚ), fun _ => some 5])
        (fun _ => ![fun _ => some (1 : ℚ), fun _ => some 2]) 0
      = some ((((∑ j : Fin 1, |(![fun _ => (3 : ℚ), fun _ => 5]) 0 j
            - (![fun _ => (1 : ℚ), fun _ => 2]) 0 j|) / (1 : ℕ))
          + ((∑ j : Fin 1, |(![fun _ => (3 : ℚ), fun _ => 5]) 1 j
            - (![fun _ => (1 : ℚ), fun _ => 2]) 1 j|) / (1 : ℕ))) / 2) :=
  calcSpecDist_cross_date_mean (by norm_num)
    (fun _ => ![fun _ => some (3 : ℚ), fun _ => some 5])
    (fun _ => ![fun _ => some (1 : ℚ), fun _ => some 2]) 0
    ![fun _ => (3 : ℚ), fun _ => 5] ![fun _ => (1 : ℚ), fun _ => 2]
    (by intro d j; fin_cases d <;> rfl)
    (by intro d j; fin_cases d <;> rfl)

/-- C7: `threshold` produces, per bracket-date raster and band, exactly
`2 * stddev / coverClasses` where the standard deviation is the reducer value
over the valid pixels of the band; and `threshMask` is true at an offset
exactly when `|center_pixel - neighbor_pixel| <= threshold`, evaluated
independently per bracket date `i` and band `b`. -/
theorem threshold_and_mask {B : ℕ} (s : ℚ → ℚ) (coverClasses : ℚ)
    (landsat : List (Fin B → List ℚ))
    (neighLandsat_t01 : Fin 2 → Fin B → (ℤ × ℤ) → EEVal) (thresh : Fin 2 → Fin B → ℚ)
    (positions : List (ℤ × ℤ)) (i : Fin 2) (b : Fin B) (kk : ℕ) (p : ℤ × ℤ)
    (hp : positions.get? kk = some p) (x y : ℚ)
    (hx : neighLandsat_t01 i b (0, 0) = some x)
    (hy : neighLandsat_t01 i b p = some y) :
    (∀ n : ℕ, (threshold s landsat coverClasses).get? n
        = (landsat.get? n).map fun image => fun b2 =>
            2 * stdDevR s (image b2) / coverClasses) ∧
    ((threshMask neighLandsat_t01 thresh positions i b).get? kk = some (some true)
      ↔ |x - y| ≤ thresh i b) := by
  constructor
  · intro n
    rw [threshold, List.get?_map]
    rcases landsat.get? n with _ | image
    · rfl
    · simp only [Option.map_some']
      congr 1
      funext b2
      rw [getThresh]
      ring
  · simp only [threshMask, List.get?_map, hp, Option.map_some']
    rw [hx, hy]
    show some (some (decide (|x - y| ≤ thresh i b))) = some (some true) ↔ _
    simp [decide_eq_true_iff]

/-- C7, witness: center 4, neighbor 5, threshold 2; the mask is true because
`|4 - 5| <= 2`. -/
theorem threshold_and_mask_witness :
    ((@threshMask 1 (fun _ _ q => if q = (0, 0) then some (4 : ℚ) else some 5)
        (fun _ _ => (2 : ℚ)) [((0 : ℤ), (0 : ℤ)), ((0 : ℤ), (1 : ℤ))] 0 0).get? 1
      = some (some true)
      ↔ |(4 : ℚ) - 5| ≤ (fun (_ : Fin 2) (_ : Fin 1) => (2 : ℚ)) 0 0) :=
  (threshold_and_mask sqrtQ 2 [] (fun _ _ q => if q = (0, 0) then some (4 : ℚ) else some 5)
    (fun _ _ => (2 : ℚ)) [((0 : ℤ), (0 : ℤ)), ((0 : ℤ), (1 : ℤ))] 0 0 1 ((0 : ℤ), (1 : ℤ))
    (by decide) 4 5 rfl (by norm_num)).2

/-- C10: whenever the center sample is valid and the band threshold
`2 * stddev / C` is defined (nonnegative standard deviation, positive class
count), the similarity mask at the center offset `(0, 0)` is true, since
`|center - center| = 0` never exceeds the nonnegative threshold — the window
center always participates in regression and weighting. -/
theorem threshMask_center_true {B : ℕ} (s : ℚ → ℚ) (coverClasses : ℚ)
    (images : Fin 2 → Fin B → List ℚ)
    (neighLandsat_t01 : Fin 2 → Fin B → (ℤ × ℤ) → EEVal)
    (positions : List (ℤ × ℤ)) (i : Fin 2) (b : Fin B) (kk : ℕ)
    (hp : positions.get? kk = some (0, 0)) (c : ℚ)
    (hc : neighLandsat_t01 i b (0, 0) = some c)
    (hs : 0 ≤ s (variancePop (images i b))) (hC : 0 < coverClasses) :
    (threshMask neighLandsat_t01 (fun i2 b2 => getThresh s coverClasses (images i2) b2)
        positions i b).get? kk = some (some true) := by
  have ht : 0 ≤ getThresh s coverClasses (images i) b := by
    rw [getThresh, stdDevR]
    have h2 : 0 ≤ 2 / coverClasses := by positivity
    exact mul_nonneg hs h2
  simp only [threshMask, List.get?_map, hp, Option.map_some']
  rw [hc]
  show some (some (decide (|c - c| ≤ _))) = some (some true)
  simp only [sub_self, abs_zero]
  simp [ht]

/-- C10, witness: a valid center sample with the threshold built from an
empty sample list (standard deviation 0) still masks the center as true. -/
theorem threshMask_center_true_witness :
    (@threshMask 1 (fun _ _ _ => some (4 : ℚ))
        (fun i2 b2 => @getThresh 1 sqrtQ 3 ((fun _ _ => ([] : List ℚ)) i2) b2)
        [((0 : ℤ), (0 : ℤ))] 0 0).get? 0 = some (some true) :=
  threshMask_center_true sqrtQ 3 (fun _ _ => ([] : List ℚ)) (fun _ _ _ => some (4 : ℚ))
    [((0 : ℤ), (0 : ℤ))] 0 0 0 (by decide) 4 rfl
    (by rw [show variancePop ([] : List ℚ) = 0 from by norm_num [variancePop], sqrtQ_zero])
    (by norm_num)
